import Mathlib

/-!
Verification of the skill/tool runtime of the `skillian` repository.

This file gives a shallow embedding, in Lean 4, of the parts of the code
relevant to the frozen claims:

* `app/core/query_template.py` — the `QueryTemplate` / `SecureQueryTemplate`
  parameter-substitution engine (`_parse_template`, `render`, the dangerous
  pattern blocklist) and `QueryTemplateExecutor.execute` /
  `build_query_function`;
* `app/core/yaml_tools.py` — `_build_query_function` (the query path of the
  YAML tool builder, which formats the template with plain `str.format`)
  and `_build_input_schema` together with the Pydantic validation semantics
  used by `Tool.execute` (`app/core/tool.py`);
* `app/core/skill_loader.py` — `_get_skill_mtime`, `needs_reload`,
  `discover_skills`;
* `app/core/registry.py` — `SkillRegistry.register`, `unregister`,
  `get_tool`.

Modelling conventions:

* Python strings are `String` / `List Char`; scanning of the fixed regular
  expressions of the source is translated into explicit recursive scanners
  with the same semantics (leftmost, non-overlapping matches; greedy `\s*`
  and `\s+`, lazy block bodies).  `\w` and `\s` are modelled by their ASCII
  meaning, and case-insensitive matching by ASCII case folding.
* Python values appearing as template arguments are the inductive `PyValue`
  (strings, booleans, integers, `None`); `pyStr` is Python's `str()`.
* Python dictionaries are association lists with first-match lookup;
  insertion (`d[k] = v`) replaces the first binding of `k` or appends, and
  deletion (`del d[k]`) fails on a missing key, exactly as in Python.
* Exceptions are `Except`; a raise inside an imperative method that has
  already mutated state is modelled by returning the state at raise time.
* Backslash escape processing performed by `re.sub` on its replacement
  string is not modelled (replacements are inserted literally); no theorem
  below depends on a substituted value containing a backslash.
-/

namespace Skillian

/-- The literal `{` character (written via its code point). -/
def obrace : Char := Char.ofNat 123

/-- The literal `}` character (written via its code point). -/
def cbrace : Char := Char.ofNat 125

/-- The single-quote character `'` (written via its code point). -/
def squote : Char := Char.ofNat 39

/-- Python's `\s` (ASCII): space, tab, newline, carriage return,
form feed, vertical tab. -/
def pySpace (c : Char) : Bool :=
  c = ' ' || c = '\t' || c = '\n' || c = '\r' || c = Char.ofNat 12 || c = Char.ofNat 11

/-- Python's `\w` restricted to ASCII: letters, digits, underscore. -/
def wordChar (c : Char) : Bool :=
  (c ≥ 'a' && c ≤ 'z') || (c ≥ 'A' && c ≤ 'Z') || (c ≥ '0' && c ≤ '9') || c = '_'

/-- Longest prefix of word characters, with the remaining suffix. -/
def spanWord : List Char → List Char × List Char
  | [] => ([], [])
  | c :: cs =>
    if wordChar c then
      let p := spanWord cs
      (c :: p.1, p.2)
    else ([], c :: cs)

/-- Longest prefix of whitespace characters, with the remaining suffix. -/
def spanSpace : List Char → List Char × List Char
  | [] => ([], [])
  | c :: cs =>
    if pySpace c then
      let p := spanSpace cs
      (c :: p.1, p.2)
    else ([], c :: cs)

theorem spanWord_snd_le (l : List Char) : (spanWord l).2.length ≤ l.length := by
  induction l with
  | nil => simp [spanWord]
  | cons c cs ih =>
    simp only [spanWord]
    split
    · simpa using Nat.le_succ_of_le ih
    · simp

theorem spanSpace_snd_le (l : List Char) : (spanSpace l).2.length ≤ l.length := by
  induction l with
  | nil => simp [spanSpace]
  | cons c cs ih =>
    simp only [spanSpace]
    split
    · simpa using Nat.le_succ_of_le ih
    · simp

/-!
The scanners below recurse on a strictly shrinking suffix of their input;
they are written with an explicit fuel argument (structural recursion, so
that concrete instances reduce in the kernel).  Every recursive call
strictly shortens the scanned list, so the wrappers' initial fuel of
`length + 1` is never exhausted and the fuel-0 branches are unreachable.
-/

/-- All occurrences of the regex `\{(\w+)\}` scanned left to right
(`re.findall` in `QueryTemplate._parse_template`). -/
def findSimpleParamsF (fuel : Nat) (l : List Char) : List String :=
  match fuel, l with
  | 0, _ => []
  | _, [] => []
  | fuel + 1, c :: cs =>
    if c = obrace then
      match (spanWord cs).2 with
      | r0 :: rest =>
        if (spanWord cs).1 ≠ [] ∧ r0 = cbrace then
          String.mk (spanWord cs).1 :: findSimpleParamsF fuel rest
        else findSimpleParamsF fuel cs
      | [] => findSimpleParamsF fuel cs
    else findSimpleParamsF fuel cs

def findSimpleParams (l : List Char) : List String :=
  findSimpleParamsF (l.length + 1) l

/-- Python's `list(set(xs))` modelled as deduplication (the iteration order
of a Python `set` is unspecified; no claim below depends on the order of
this list, only on its membership). -/
def dedupList : List String → List String
  | [] => []
  | x :: xs => if x ∈ xs then dedupList xs else x :: dedupList xs

theorem mem_dedupList {x : String} {l : List String} : x ∈ dedupList l ↔ x ∈ l := by
  induction l with
  | nil => simp [dedupList]
  | cons y ys ih =>
    simp only [dedupList]
    split
    · rename_i hy
      simp only [List.mem_cons, ih]
      constructor
      · exact Or.inr
      · rintro (rfl | h)
        · exact hy
        · exact h
    · simp [ih]

/-! ### Python argument values -/

/-- A Python value that can appear in a template argument bag. -/
inductive PyValue where
  | str (s : String)
  | bool (b : Bool)
  | int (n : Int)
  | none
  deriving DecidableEq, Repr

/-- Python's `str()` on a `PyValue`. -/
def pyStr : PyValue → String
  | .str s => s
  | .bool true => "True"
  | .bool false => "False"
  | .int n => toString n
  | .none => "None"

/-- Keyword-argument bags (`**kwargs`): an association list with
first-match lookup, as for a Python `dict`. -/
def Kwargs : Type := List (String × PyValue)

/-- First-match lookup in an association list (`d[k]` / `d.get(k)`). -/
def alookup {β : Type} (k : String) : List (String × β) → Option β
  | [] => Option.none
  | (k', v) :: rest => if k' = k then some v else alookup k rest

/-! ### Conditional-block scanning

The source parses conditional blocks with the regex
`\{%\s*if\s+(\w+)\s*%\}(.*?)\{%\s*endif\s*%\}` (DOTALL) and, during
rendering, removes or substitutes each block with a per-name variant of
the same pattern.  The scanners below implement exactly that matching:
greedy `\s*`/`\s+` (which is unambiguous here because each whitespace
class is followed by a token starting with a non-whitespace character)
and a lazy body terminated by the earliest `{% endif %}` tag. -/

/-- If `l` starts with an opening tag `{% if NAME %}`, return the captured
name and the suffix after the tag. -/
def matchOpenTag (l : List Char) : Option (String × List Char) :=
  match l with
  | c0 :: c1 :: r =>
    if c0 = obrace ∧ c1 = '%' then
      match (spanSpace r).2 with
      | 'i' :: 'f' :: r2 =>
        let sp := spanSpace r2
        if sp.1 = [] then Option.none
        else
          let w := spanWord sp.2
          if w.1 = [] then Option.none
          else
            match (spanSpace w.2).2 with
            | d0 :: d1 :: r6 =>
              if d0 = '%' ∧ d1 = cbrace then some (String.mk w.1, r6)
              else Option.none
            | _ => Option.none
      | _ => Option.none
    else Option.none
  | _ => Option.none

/-- If `l` starts with an opening tag `{% if name %}` for this specific
`name` (the per-name pattern rebuilt in `render`), return the suffix
after the tag. -/
def matchOpenTagFor (name : String) (l : List Char) : Option (List Char) :=
  match matchOpenTag l with
  | some (n, r) => if n = name then some r else Option.none
  | Option.none => Option.none

/-- If `l` starts with a closing tag `{% endif %}`, return the suffix
after the tag. -/
def matchEndTag (l : List Char) : Option (List Char) :=
  match l with
  | c0 :: c1 :: r =>
    if c0 = obrace ∧ c1 = '%' then
      match (spanSpace r).2 with
      | 'e' :: 'n' :: 'd' :: 'i' :: 'f' :: r2 =>
        match (spanSpace r2).2 with
        | d0 :: d1 :: r3 =>
          if d0 = '%' ∧ d1 = cbrace then some r3
          else Option.none
        | _ => Option.none
      | _ => Option.none
    else Option.none
  | _ => Option.none

/-- The lazy body `(.*?)` of a conditional block: the shortest prefix of
`l` followed by a `{% endif %}` tag; returns the body and the suffix
after the closing tag. -/
def findBody : List Char → Option (List Char × List Char)
  | [] => Option.none
  | c :: cs =>
    match matchEndTag (c :: cs) with
    | some r => some ([], r)
    | Option.none =>
      match findBody cs with
      | some (body, r) => some (c :: body, r)
      | Option.none => Option.none

/-- All conditional blocks, scanned left to right (`re.findall` of the
block pattern in `_parse_template`): a list of
(condition parameter, raw block body). -/
def findBlocksF (fuel : Nat) (l : List Char) : List (String × String) :=
  match fuel, l with
  | 0, _ => []
  | _, [] => []
  | fuel + 1, c :: cs =>
    match matchOpenTag (c :: cs) with
    | some (name, afterOpen) =>
      match findBody afterOpen with
      | some (body, rest) => (name, String.mk body) :: findBlocksF fuel rest
      | Option.none => findBlocksF fuel cs
    | Option.none => findBlocksF fuel cs

def findBlocks (l : List Char) : List (String × String) :=
  findBlocksF (l.length + 1) l

/-- `re.sub` of the per-name block pattern
`\{%\s*if\s+name\s*%\}.*?\{%\s*endif\s*%\}` against `l`, replacing every
(leftmost, non-overlapping) match by `repl`.  Replacement text is
inserted literally (see the header note on `re.sub` escapes). -/
def resubBlockF (fuel : Nat) (name : String) (repl : List Char)
    (l : List Char) : List Char :=
  match fuel, l with
  | 0, _ => []
  | _, [] => []
  | fuel + 1, c :: cs =>
    match matchOpenTagFor name (c :: cs) with
    | some afterOpen =>
      match findBody afterOpen with
      | some (_, rest) => repl ++ resubBlockF fuel name repl rest
      | Option.none => c :: resubBlockF fuel name repl cs
    | Option.none => c :: resubBlockF fuel name repl cs

def resubBlock (name : String) (repl : List Char) (l : List Char) : List Char :=
  resubBlockF (l.length + 1) name repl l

/-! ### Python `str.format` on a block body

Only simple replacement fields `{name}` (plus the `{{` / `}}` escapes) are
modelled; a conversion/format-spec field or a stray brace is mapped to
`valueError` (Python raises `ValueError` for a stray brace and
`IndexError` for `{}` without positional arguments; the distinction among
non-`KeyError` failures is irrelevant below). -/

inductive FmtError where
  | keyError (k : String)
  | valueError
  deriving DecidableEq, Repr

def pyFormatF (fuel : Nat) (kw : List (String × PyValue)) (l : List Char) :
    Except FmtError (List Char) :=
  match fuel, l with
  | 0, _ => .error .valueError
  | _, [] => .ok []
  | fuel + 1, c :: cs =>
    if c = obrace then
      match cs with
      | c2 :: cs2 =>
        if c2 = obrace then (pyFormatF fuel kw cs2).map (obrace :: ·)
        else
          match (spanWord (c2 :: cs2)).2 with
          | r0 :: rest =>
            if (spanWord (c2 :: cs2)).1 ≠ [] ∧ r0 = cbrace then
              match alookup (String.mk (spanWord (c2 :: cs2)).1) kw with
              | some v => (pyFormatF fuel kw rest).map ((pyStr v).toList ++ ·)
              | Option.none => .error (.keyError (String.mk (spanWord (c2 :: cs2)).1))
            else .error .valueError
          | [] => .error .valueError
      | [] => .error .valueError
    else if c = cbrace then
      match cs with
      | c2 :: cs2 =>
        if c2 = cbrace then (pyFormatF fuel kw cs2).map (cbrace :: ·)
        else .error .valueError
      | [] => .error .valueError
    else (pyFormatF fuel kw cs).map (c :: ·)

def pyFormat (kw : List (String × PyValue)) (l : List Char) :
    Except FmtError (List Char) :=
  pyFormatF (l.length + 1) kw l

/-- `value.replace("'", "''")`: double every embedded single quote. -/
def escQuotes : List Char → List Char
  | [] => []
  | c :: cs =>
    if c = squote then squote :: squote :: escQuotes cs else c :: escQuotes cs

/-- The type-aware literal of `QueryTemplate.render` step 2: strings have
single quotes doubled, booleans become `true`/`false`, `None` becomes
`NULL`, anything else is `str(value)`. -/
def sqlLiteral : PyValue → List Char
  | .str s => escQuotes s.toList
  | .bool true => "true".toList
  | .bool false => "false".toList
  | .int n => (toString n).toList
  | .none => "NULL".toList

/-- Python `str.replace(pat, repl)`: replace every leftmost,
non-overlapping occurrence.  (The guard on an empty `pat` never fires
below: the pattern is always a braced placeholder.) -/
def replaceAllF (fuel : Nat) (pat repl : List Char) (l : List Char) :
    List Char :=
  match fuel, l with
  | 0, _ => []
  | _, [] => []
  | fuel + 1, c :: cs =>
    if pat ≠ [] ∧ pat.isPrefixOf (c :: cs) then
      repl ++ replaceAllF fuel pat repl ((c :: cs).drop pat.length)
    else c :: replaceAllF fuel pat repl cs

def replaceAll (pat repl : List Char) (l : List Char) : List Char :=
  replaceAllF (l.length + 1) pat repl l

/-- Step 1 of `QueryTemplate.render`: for each parsed conditional block in
order, if its condition parameter is present and not `None`, substitute
the block body via `str.format` and replace every block with that
condition name by the result; otherwise remove every such block. -/
def applyBlocks (kw : List (String × PyValue)) :
    List (String × String) → List Char → Except FmtError (List Char)
  | [], res => .ok res
  | (name, body) :: bs, res =>
    match alookup name kw with
    | some v =>
      if v = PyValue.none then applyBlocks kw bs (resubBlock name [] res)
      else
        match pyFormat kw body.toList with
        | .ok rb => applyBlocks kw bs (resubBlock name rb res)
        | .error e => .error e
    | Option.none => applyBlocks kw bs (resubBlock name [] res)

/-- Step 2 of `QueryTemplate.render`: for each parsed simple parameter, a
parameter that is neither in the bag nor a condition parameter of some
block raises `ToolLoadError("Missing required parameter: …")` (the error
carries the parameter name); otherwise its placeholder is replaced by the
type-aware literal of the value (default `""` for an absent condition
parameter). -/
def substParams (kw : List (String × PyValue)) (cnames : List String) :
    List String → List Char → Except String (List Char)
  | [], res => .ok res
  | p :: ps, res =>
    if (alookup p kw).isNone ∧ p ∉ cnames then .error p
    else
      substParams kw cnames ps
        (replaceAll (obrace :: (p.toList ++ [cbrace]))
          (sqlLiteral ((alookup p kw).getD (PyValue.str ""))) res)

/-- Greedy match of `\s*\n` (the tail of the blank-line pattern
`\n\s*\n`): longest whitespace prefix ending just before a final `\n`;
returns the suffix after that `\n`. -/
def matchBlankRun : List Char → Option (List Char)
  | [] => Option.none
  | c :: cs =>
    if pySpace c then
      match matchBlankRun cs with
      | some r => some r
      | Option.none => if c = '\n' then some cs else Option.none
    else Option.none

/-- Step 3a of `QueryTemplate.render`:
`re.sub(r"\n\s*\n", "\n", result)` — collapse blank-line runs. -/
def collapseNlF (fuel : Nat) (l : List Char) : List Char :=
  match fuel, l with
  | 0, _ => []
  | _, [] => []
  | fuel + 1, c :: cs =>
    if c = '\n' then
      match matchBlankRun cs with
      | some r => '\n' :: collapseNlF fuel r
      | Option.none => '\n' :: collapseNlF fuel cs
    else c :: collapseNlF fuel cs

def collapseNl (l : List Char) : List Char :=
  collapseNlF (l.length + 1) l

/-- Step 3b of `QueryTemplate.render`: `result.strip()`. -/
def stripString (l : List Char) : List Char :=
  ((l.dropWhile pySpace).reverse.dropWhile pySpace).reverse

/-! ### `QueryTemplate.render` -/

/-- An error raised by `QueryTemplate.render`: either the
`ToolLoadError("Missing required parameter: …")` of step 2 (carrying the
parameter name) or an exception escaping from `str.format` in step 1. -/
inductive RenderError where
  | missingParam (p : String)
  | fmtError (e : FmtError)
  deriving DecidableEq, Repr

/-- `self._parameters`: the deduplicated simple placeholder names. -/
def templateParams (t : String) : List String :=
  dedupList (findSimpleParams t.toList)

/-- `self._optional_blocks`: the parsed conditional blocks. -/
def templateBlocks (t : String) : List (String × String) :=
  findBlocks t.toList

/-- `[b[0] for b in self._optional_blocks]`: the condition parameter
names. -/
def condNames (t : String) : List String :=
  (templateBlocks t).map Prod.fst

/-- `QueryTemplate.render(**kwargs)`: conditional blocks first, then
simple substitution, then whitespace cleanup. -/
def renderT (t : String) (kw : List (String × PyValue)) :
    Except RenderError String :=
  match applyBlocks kw (templateBlocks t) t.toList with
  | .error e => .error (.fmtError e)
  | .ok r1 =>
    match substParams kw (condNames t) (templateParams t) r1 with
    | .error p => .error (.missingParam p)
    | .ok r2 => .ok (String.mk (stripString (collapseNl r2)))

/-! ### `SecureQueryTemplate`

The dangerous-pattern blocklist of `SecureQueryTemplate` consists of the
fixed regexes listed in `DANGEROUS_PATTERNS`, searched case-insensitively
anywhere in a string (`re.search` with `re.IGNORECASE`).  Each pattern is
a sequence of literals and whitespace classes; because in every pattern a
whitespace class is followed either by the end of the pattern or by a
literal starting with a non-whitespace character, greedy matching of
`\s*`/`\s+` is equivalent to existence of a match, which is what the
token matcher below computes. -/

inductive PTok where
  | lit (s : String)
  | ws0
  | ws1
  deriving Repr

/-- ASCII case-insensitive prefix test. -/
def ciHasPrefixAux : List Char → List Char → Bool
  | [], _ => true
  | _ :: _, [] => false
  | p :: ps, c :: cs => (p.toLower = c.toLower) && ciHasPrefixAux ps cs

/-- Match a token sequence at the start of `l`. -/
def matchToksAt : List PTok → List Char → Bool
  | [], _ => true
  | .lit s :: ts, l =>
    ciHasPrefixAux s.toList l && matchToksAt ts (l.drop s.toList.length)
  | .ws0 :: ts, l => matchToksAt ts (l.dropWhile pySpace)
  | .ws1 :: ts, l =>
    !(l.takeWhile pySpace).isEmpty && matchToksAt ts (l.dropWhile pySpace)

/-- `re.search`: match the token sequence at any position of `l`. -/
def searchToks (p : List PTok) : List Char → Bool
  | [] => matchToksAt p []
  | c :: cs => matchToksAt p (c :: cs) || searchToks p cs

/-- A pattern of the form `;\s*KEYWORD\s+`. -/
def semiKw (kw : String) : List PTok := [.lit ";", .ws0, .lit kw, .ws1]

/-- `SecureQueryTemplate.DANGEROUS_PATTERNS`, in source order. -/
def dangerousPatterns : List (List PTok) :=
  [semiKw "DROP", semiKw "DELETE", semiKw "UPDATE", semiKw "INSERT",
   semiKw "ALTER", semiKw "CREATE", semiKw "TRUNCATE",
   [.lit "--"], [.lit "/*"],
   [.lit "UNION", .ws1, .lit "SELECT"],
   [.lit "INTO", .ws1, .lit "OUTFILE"],
   [.lit "INTO", .ws1, .lit "DUMPFILE"]]

/-- Does any dangerous pattern match anywhere in `l`? -/
def dangerousText (l : List Char) : Bool :=
  dangerousPatterns.any (fun p => searchToks p l)

/-- An error raised by `SecureQueryTemplate.render`. -/
inductive SecError where
  | unsafeParam (name : String)
  | renderErr (e : RenderError)
  | notSelect
  | unsafeQuery
  deriving DecidableEq, Repr

/-- The argument-validation loop of `SecureQueryTemplate.render`: the
first string-valued keyword argument matching a dangerous pattern (the
raised `ToolLoadError` names that parameter). -/
def firstUnsafeArg : List (String × PyValue) → Option String
  | [] => Option.none
  | (n, v) :: rest =>
    match v with
    | .str s => if dangerousText s.toList then some n else firstUnsafeArg rest
    | _ => firstUnsafeArg rest

/-- `_validate_query`, first check: the stripped, upper-cased query must
start with `SELECT` or `WITH`. -/
def secSelectOk (q : String) : Bool :=
  let u := (stripString q.toList).map Char.toUpper
  "SELECT".toList.isPrefixOf u || "WITH".toList.isPrefixOf u

/-- `SecureQueryTemplate.render`: validate every string argument, render
via the base `QueryTemplate.render`, then validate the rendered query
(SELECT/WITH check, then the blocklist again). -/
def secureRender (t : String) (kw : List (String × PyValue)) :
    Except SecError String :=
  match firstUnsafeArg kw with
  | some n => .error (.unsafeParam n)
  | Option.none =>
    match renderT t kw with
    | .error e => .error (.renderErr e)
    | .ok q =>
      if !secSelectOk q then .error .notSelect
      else if dangerousText q.toList then .error .unsafeQuery
      else .ok q

/-! ### The two query-tool execution paths

`query_template.build_query_function` (in `query_template.py`, with
default `secure=True`) renders through `SecureQueryTemplate` and, only on
successful rendering, invokes the connector's query-execution capability
with the rendered text (`QueryTemplateExecutor.execute`; a render failure
is returned as a structured error payload without touching the
connector).

`yaml_tools._build_query_function` — the function the YAML tool builder
`_build_tool` actually calls for a definition carrying a query template —
instead formats the raw template with plain `str.format(**kwargs)` and
passes the result to the connector; no template class and no validation
is involved (`KeyError` becomes a `"Missing parameter"` payload). -/

/-- What happens before the connector on each invocation. -/
inductive ExecOutcome where
  | connectorCall (query : String)
  | renderFailed (e : SecError)
  deriving DecidableEq, Repr

/-- The callable produced by `query_template.build_query_function`, up to
the point where the connector is (or is not) reached. -/
def buildQueryFunctionCall (secure : Bool) (t : String)
    (kw : List (String × PyValue)) : ExecOutcome :=
  let rendered : Except SecError String :=
    if secure then secureRender t kw
    else
      match renderT t kw with
      | .ok q => .ok q
      | .error e => .error (.renderErr e)
  match rendered with
  | .ok q => .connectorCall q
  | .error e => .renderFailed e

/-- Outcome of the callable produced by `yaml_tools._build_query_function`
(the YAML tool builder's query path). -/
inductive YamlExecOutcome where
  | connectorCall (query : String)
  | errorPayload (e : FmtError)
  deriving DecidableEq, Repr

/-- `yaml_tools._build_query_function`'s `execute_query`:
`query_template.format(**kwargs)`, then the connector is invoked with the
formatted text. -/
def yamlExecuteQuery (t : String) (kw : List (String × PyValue)) :
    YamlExecOutcome :=
  match pyFormat kw t.toList with
  | .ok q => .connectorCall (String.mk q)
  | .error e => .errorPayload e

/-! ### Skill loader: mtimes and discovery -/

/-- The modification times of a skill's three source files (`SKILL.md`,
`tools.yaml`, `tools.py`), `Option.none` when the file does not exist.
Modification times are modelled as naturals. -/
structure SkillFiles where
  skillMd : Option Nat
  toolsYaml : Option Nat
  toolsPy : Option Nat
  deriving DecidableEq, Repr

/-- The modification times of the files that exist, in source order. -/
def mtimeList (f : SkillFiles) : List Nat :=
  [f.skillMd, f.toolsYaml, f.toolsPy].filterMap id

/-- `SkillLoader._get_skill_mtime`: `max(mtimes)` over the existing
files, `0` when none exists. -/
def getSkillMtime (f : SkillFiles) : Nat :=
  (mtimeList f).foldr max 0

/-- `SkillLoader.needs_reload`: the current maximum mtime compared
against the cached value recorded by the last `load_skill`. -/
def needsReload (current : SkillFiles) (cached : Nat) : Bool :=
  getSkillMtime current > cached

/-- One entry of `skills_dir.iterdir()` as seen by `discover_skills`,
together with whether the CLI's `.disabled` marker file is present in it
(the marker is created/removed by the `skill disable` / `skill enable`
CLI commands). -/
structure DirEntry where
  name : String
  isDir : Bool
  hasSkillMd : Bool
  hasDisabledMarker : Bool
  deriving DecidableEq, Repr

/-- Does the entry name start with an underscore? -/
def underscoreFirst (s : String) : Bool :=
  match s.toList with
  | c :: _ => c = '_'
  | [] => false

/-- Lexicographic (code-point) order on strings, as Python `sorted` uses
for `str`. -/
def lexLe : List Char → List Char → Bool
  | [], _ => true
  | _ :: _, [] => false
  | a :: as, b :: bs => if a = b then lexLe as bs else decide (a < b)

def insertSorted (s : String) : List String → List String
  | [] => [s]
  | x :: xs => if lexLe s.toList x.toList then s :: x :: xs else x :: insertSorted s xs

def sortStrings (l : List String) : List String :=
  l.foldr insertSorted []

/-- `SkillLoader.discover_skills`: the sorted names of the directory
entries that are directories, whose name does not start with `_`, and
that contain `SKILL.md`.  (The `.disabled` marker is not consulted.) -/
def discoverSkills (entries : List DirEntry) : List String :=
  sortStrings
    ((entries.filter
      (fun e => e.isDir && !underscoreFirst e.name && e.hasSkillMd)).map
      (fun e => e.name))

/-! ### Synthesized input schemas and their validation

`yaml_tools._build_input_schema` turns the manifest's parameter specs into
a Pydantic model with one field per spec: required specs become required
fields, specs with a non-`None` default become fields with that default,
all others become nullable fields defaulting to `None`.  `Tool.execute`
then validates a keyword bag with `self.input_schema(**kwargs)` and calls
the implementation with `validated.model_dump()`.

Pydantic validation of such a model has three relevant layers:
* a key absent for a required field yields a "field required" error;
* a key present with a value the field's declared type does not accept
  (e.g. `None` or an integer for a required `str` field) yields a type
  error — which values a field accepts is Pydantic's type/coercion table,
  abstracted below as an acceptance predicate `vok` on (spec, value)
  pairs, since no claim depends on a specific coercion rule (value
  *transformation* by coercion is likewise not modelled: no claim
  concerns output values);
* keys not declared by any field are silently dropped, not rejected —
  the model is created with the default configuration, whose `extra`
  behaviour is `"ignore"`.
All failures are collected into one `ValidationError`; on success
`model_dump()` re-materializes exactly the declared fields.  Nested
object parameters behave like the flat case for the required/default
logic and are not modelled separately. -/

structure ParamSpec where
  name : String
  required : Bool
  hasDefault : Bool
  default : PyValue
  deriving DecidableEq, Repr

/-- The required field names absent from the bag: the fields for which
Pydantic reports a "field required" error. -/
def missingRequired (specs : List ParamSpec) (bag : List (String × PyValue)) :
    List String :=
  (specs.filter (fun sp => sp.required && (alookup sp.name bag).isNone)).map
    (fun sp => sp.name)

/-- The field names present in the bag with a value the field does not
accept (Pydantic's per-field type errors), for a given acceptance
predicate `vok`. -/
def invalidPresent (vok : ParamSpec → PyValue → Bool)
    (specs : List ParamSpec) (bag : List (String × PyValue)) : List String :=
  (specs.filter (fun sp =>
    match alookup sp.name bag with
    | some v => !vok sp v
    | Option.none => false)).map (fun sp => sp.name)

/-- The field values of the validated model, in field order: the bag's
value when present, else the declared default, else `None`. -/
def materializeFields (specs : List ParamSpec) (bag : List (String × PyValue)) :
    List (String × PyValue) :=
  specs.map (fun sp =>
    (sp.name,
      match alookup sp.name bag with
      | some v => v
      | Option.none => if sp.hasDefault then sp.default else PyValue.none))

/-- Validation of a keyword bag against the synthesized schema, as
performed by `Tool.execute`: a `ValidationError` listing the offending
field names (missing required fields and present fields whose value the
field's type does not accept), or the validated keyword bag
re-materialized by `model_dump()`.  The acceptance of a present value is
the abstracted predicate `vok` (see the section header). -/
def validateBag (vok : ParamSpec → PyValue → Bool)
    (specs : List ParamSpec) (bag : List (String × PyValue)) :
    Except (List String) (List (String × PyValue)) :=
  match missingRequired specs bag ++ invalidPresent vok specs bag with
  | [] => .ok (materializeFields specs bag)
  | errs => .error errs

/-- Pydantic v2 acceptance for a plain (non-optional) `str` field over
this value universe: exactly strings — `None`, booleans and integers are
not coerced to `str`. -/
def strFieldAccepts : ParamSpec → PyValue → Bool := fun _ v =>
  match v with
  | .str _ => true
  | _ => false

/-! ### `SkillRegistry`

A skill is modelled by its name and the list of its tools' names (tools
are value objects identified by name for registry purposes).  The two
registry dictionaries are association lists; `d[k] = v` replaces the
first binding of `k` or appends, `del d[k]` fails on a missing key, both
as in Python.  A method that raises is modelled as returning the state it
held at raise time together with the error. -/

structure SkillM where
  name : String
  tools : List String
  deriving DecidableEq, Repr

structure Registry where
  skills : List (String × SkillM)
  toolIndex : List (String × String)
  deriving DecidableEq, Repr

def emptyRegistry : Registry := ⟨[], []⟩

/-- `d[k] = v` on a Python dict: replace the first binding or append. -/
def dictInsert {β : Type} (k : String) (v : β) :
    List (String × β) → List (String × β)
  | [] => [(k, v)]
  | (k', v') :: rest =>
    if k' = k then (k, v) :: rest else (k', v') :: dictInsert k v rest

/-- Remove the first binding of `k` (the only one, in registry states). -/
def eraseKey {β : Type} (k : String) :
    List (String × β) → List (String × β)
  | [] => []
  | (k', v') :: rest =>
    if k' = k then rest else (k', v') :: eraseKey k rest

/-- `del d[k]`: `KeyError` when the key is absent. -/
def delKey {β : Type} (k : String) (l : List (String × β)) :
    Option (List (String × β)) :=
  if (alookup k l).isSome then some (eraseKey k l) else Option.none

/-- Errors raised by registry methods. -/
inductive RegError where
  | duplicateSkill (n : String)
  | duplicateTool (t : String) (owner : String)
  | skillNotFound (n : String)
  | toolNotFound (t : String)
  | keyError (k : String)
  deriving DecidableEq, Repr

/-- The conflict loop of `register`: the first tool of the new skill
already present in the tool index, with its current owner. -/
def firstToolConflict (tools : List String) (idx : List (String × String)) :
    Option (String × String) :=
  match tools with
  | [] => Option.none
  | t :: ts =>
    match alookup t idx with
    | some owner => some (t, owner)
    | Option.none => firstToolConflict ts idx

/-- `SkillRegistry.register`: duplicate-skill check, then the tool
conflict loop, and only then the two mutations.  On error the state is
returned unchanged (both raises precede any mutation). -/
def register (r : Registry) (s : SkillM) : Registry × Option RegError :=
  if (alookup s.name r.skills).isSome then
    (r, some (.duplicateSkill s.name))
  else
    match firstToolConflict s.tools r.toolIndex with
    | some (t, owner) => (r, some (.duplicateTool t owner))
    | Option.none =>
      ({ skills := dictInsert s.name s r.skills,
         toolIndex := s.tools.foldl (fun idx t => dictInsert t s.name idx)
           r.toolIndex },
       Option.none)

/-- The deletion loop of `unregister`: delete each tool key in turn,
stopping with a `KeyError` (and the partially mutated index) if a key is
missing. -/
def delToolKeys (idx : List (String × String)) :
    List String → List (String × String) × Option String
  | [] => (idx, Option.none)
  | t :: ts =>
    match delKey t idx with
    | some idx' => delToolKeys idx' ts
    | Option.none => (idx, some t)

/-- `SkillRegistry.unregister`: look the skill up, delete its tools from
the index, then delete the skill. -/
def unregister (r : Registry) (n : String) : Registry × Option RegError :=
  match alookup n r.skills with
  | Option.none => (r, some (.skillNotFound n))
  | some sk =>
    match delToolKeys r.toolIndex sk.tools with
    | (idx', some t) => ({ r with toolIndex := idx' }, some (.keyError t))
    | (idx', Option.none) =>
      ({ skills := eraseKey n r.skills, toolIndex := idx' }, Option.none)

/-- `SkillRegistry.get_tool`: tool index, then skills map (a stale index
entry would raise `KeyError`), then `Skill.get_tool` (first tool of the
skill with that name). -/
def getTool (r : Registry) (name : String) : Except RegError String :=
  match alookup name r.toolIndex with
  | Option.none => .error (.toolNotFound name)
  | some sn =>
    match alookup sn r.skills with
    | Option.none => .error (.keyError sn)
    | some sk =>
      match sk.tools.find? (fun t => t = name) with
      | some t => .ok t
      | Option.none => .error (.toolNotFound name)

/-- Did the call succeed? -/
def exceptOk {ε α : Type} : Except ε α → Bool
  | .ok _ => true
  | .error _ => false

/-- A registry operation: one `register` or `unregister` call. -/
inductive Op where
  | reg (s : SkillM)
  | unreg (n : String)
  deriving DecidableEq, Repr

def applyOp (r : Registry) : Op → Registry × Option RegError
  | .reg s => register r s
  | .unreg n => unregister r n

/-- Run a sequence of calls, `Option.none` as soon as one raises. -/
def runOps : Registry → List Op → Option Registry
  | r, [] => some r
  | r, op :: ops =>
    match applyOp r op with
    | (r', Option.none) => runOps r' ops
    | (_, some _) => Option.none

/-! ### Helper lemmas -/

theorem substParams_error_mem {kw : List (String × PyValue)}
    {cnames ps : List String} {res : List Char} {p : String}
    (h : substParams kw cnames ps res = .error p) :
    p ∈ ps ∧ alookup p kw = Option.none ∧ p ∉ cnames := by
  induction ps generalizing res with
  | nil => simp [substParams] at h
  | cons q qs ih =>
    rw [substParams] at h
    split at h
    · rename_i hq
      cases h
      exact ⟨List.mem_cons_self _ _, Option.isNone_iff_eq_none.mp hq.1, hq.2⟩
    · have := ih h
      exact ⟨List.mem_cons_of_mem _ this.1, this.2⟩

theorem substParams_error_exists {kw : List (String × PyValue)}
    {cnames ps : List String} (res : List Char)
    (h : ∃ p ∈ ps, alookup p kw = Option.none ∧ p ∉ cnames) :
    ∃ q, substParams kw cnames ps res = .error q := by
  induction ps generalizing res with
  | nil => simp at h
  | cons q qs ih =>
    rw [substParams]
    split
    · exact ⟨q, rfl⟩
    · rename_i hq
      apply ih
      obtain ⟨p, hp, h1, h2⟩ := h
      rcases List.mem_cons.mp hp with rfl | hp'
      · exact absurd ⟨Option.isNone_iff_eq_none.mpr h1, h2⟩ hq
      · exact ⟨p, hp', h1, h2⟩

/-- `alookup` after a Python dict assignment. -/
theorem alookup_dictInsert {β : Type} (k : String) (v : β)
    (l : List (String × β)) (k' : String) :
    alookup k' (dictInsert k v l) =
      if k = k' then some v else alookup k' l := by
  induction l with
  | nil => simp [dictInsert, alookup]
  | cons kv rest ih =>
    obtain ⟨k1, v1⟩ := kv
    by_cases h1 : k1 = k
    · subst h1
      by_cases h2 : k1 = k'
      · subst h2
        simp [dictInsert, alookup]
      · simp [dictInsert, alookup, h2, fun h : k1 = k' => h2 h]
    · by_cases h2 : k1 = k'
      · subst h2
        have h3 : ¬(k = k1) := fun h => h1 h.symm
        simp [dictInsert, alookup, h1, h3]
      · simp [dictInsert, alookup, h1, h2, ih]

/-- `alookup` after indexing a skill's tools
(`for tool in skill.tools: self._tool_index[tool.name] = skill.name`). -/
theorem alookup_foldl_insert (ts : List String) (sn : String)
    (idx : List (String × String)) (x : String) :
    alookup x (ts.foldl (fun i t => dictInsert t sn i) idx) =
      if x ∈ ts then some sn else alookup x idx := by
  induction ts generalizing idx with
  | nil => simp
  | cons t ts ih =>
    simp only [List.foldl_cons, ih, alookup_dictInsert, List.mem_cons]
    by_cases h1 : x ∈ ts
    · simp [h1]
    · by_cases h2 : t = x
      · subst h2
        simp [h1]
      · have h3 : ¬(x = t) := fun h => h2 h.symm
        simp [h1, h2, h3]

theorem firstToolConflict_eq_none {ts : List String}
    {idx : List (String × String)} :
    firstToolConflict ts idx = Option.none ↔
      ∀ t ∈ ts, alookup t idx = Option.none := by
  induction ts with
  | nil => simp [firstToolConflict]
  | cons t ts ih =>
    rw [firstToolConflict]
    constructor
    · intro h
      split at h
      · simp at h
      · rename_i hl
        intro u hu
        rcases List.mem_cons.mp hu with rfl | hu'
        · exact hl
        · exact (ih.mp h) u hu'
    · intro h
      have ht := h t (List.mem_cons_self _ _)
      rw [ht]
      exact ih.mpr (fun u hu => h u (List.mem_cons_of_mem _ hu))

theorem firstToolConflict_eq_some {ts : List String}
    {idx : List (String × String)} {t o : String}
    (h : firstToolConflict ts idx = some (t, o)) :
    t ∈ ts ∧ alookup t idx = some o := by
  induction ts with
  | nil => simp [firstToolConflict] at h
  | cons u us ih =>
    rw [firstToolConflict] at h
    split at h
    · rename_i hv
      cases h
      exact ⟨List.mem_cons_self _ _, hv⟩
    · have := ih h
      exact ⟨List.mem_cons_of_mem _ this.1, this.2⟩

/-! ### C1 -/

/-- C1.  For a tool definition carrying a query template, the claim says
the builder selects the secure template variant so that invoking the
built tool with `account="A'; DROP TABLE ledger; --"` fails before the
connector with an error naming `account`.  The YAML tool builder's actual
query path (`yaml_tools._build_query_function`) instead formats the raw
template with `str.format` and reaches the connector with the injected
text; the secure path exists in `query_template.build_query_function`
(default `secure=True`, whose docstring says it is used by the YAML tool
loader) but is never called by the builder.  This theorem evaluates both
paths at the claimed input. -/
theorem claim_C1_yaml_query_path_reaches_connector :
    yamlExecuteQuery "SELECT * FROM ledger WHERE account = \x27\x7baccount\x7d\x27"
        [("account", PyValue.str "A\x27; DROP TABLE ledger; --")] =
      .connectorCall "SELECT * FROM ledger WHERE account = \x27A\x27; DROP TABLE ledger; --\x27"
    ∧ buildQueryFunctionCall true
        "SELECT * FROM ledger WHERE account = \x27\x7baccount\x7d\x27"
        [("account", PyValue.str "A\x27; DROP TABLE ledger; --")] =
      .renderFailed (.unsafeParam "account") := by
  exact ⟨rfl, rfl⟩

/-! ### C3 -/

/-- C3 counterexample.  The claim says that when a conditional block's
condition parameter is absent the block is removed and rendering never
fails with a missing-parameter error for a placeholder appearing only
inside that removed block.  In `{% if x %}A{y}B{% endif %}` the
placeholder `y` appears only inside the block; with an empty argument bag
the block is removed (`x` is absent), yet `render` raises
`Missing required parameter: y`, because step 2 exempts only condition
parameters from the requiredness check. -/
theorem claim_C3_counterexample :
    renderT "\x7b% if x %\x7dA\x7by\x7dB\x7b% endif %\x7d" [] =
      .error (.missingParam "y") := by
  rfl

/-- C3 amended: conditional-block resolution happens before simple
substitution, and rendering never fails with a missing-parameter error
for a placeholder that is the *condition parameter* of some conditional
block (in particular the removed block's own condition placeholder); a
placeholder that is not a condition parameter remains required even when
it appears only inside a removed block. -/
theorem claim_C3_amended (t : String) (kw : List (String × PyValue))
    (p : String) (hp : p ∈ condNames t) :
    renderT t kw ≠ .error (.missingParam p) := by
  unfold renderT
  split
  · intro h
    injection h with h2
    exact RenderError.noConfusion h2
  · split
    · rename_i q hq
      have hm := substParams_error_mem hq
      intro h
      injection h with h2
      injection h2 with h3
      subst h3
      exact hm.2.2 hp
    · intro h
      exact Except.noConfusion h

theorem claim_C3_amended_witness :
    renderT "\x7b% if x %\x7dA\x7bx\x7dB\x7b% endif %\x7d" [] ≠
      .error (.missingParam "x") :=
  claim_C3_amended "\x7b% if x %\x7dA\x7bx\x7dB\x7b% endif %\x7d" [] "x"
    (by decide)

/-! ### C5 -/

/-- C5: rendering a template consisting solely of
`{% if x %}A{x}B{% endif %}` produces the empty string when `x` is
absent, and `"AvB"` when `x = "v"`. -/
theorem claim_C5_conditional_block_example :
    renderT "\x7b% if x %\x7dA\x7bx\x7dB\x7b% endif %\x7d" [] = .ok ""
    ∧ renderT "\x7b% if x %\x7dA\x7bx\x7dB\x7b% endif %\x7d"
        [("x", PyValue.str "v")] = .ok "AvB" := by
  exact ⟨rfl, rfl⟩

/-! ### C8 -/

/-- C8.  The claim says discovery returns the subdirectories containing
`SKILL.md`, excluding underscore-prefixed directories *and every skill
explicitly marked disabled*.  `discover_skills` performs the first two
filters but never consults the `.disabled` marker that the CLI's
`skill disable` command creates (whose help text promises the skill
"won't be loaded on startup"): a directory with `SKILL.md` and a
`.disabled` marker is still returned. -/
theorem claim_C8_disabled_skill_still_discovered :
    discoverSkills
      [⟨"_template", true, true, false⟩, ⟨"sales", true, true, true⟩,
       ⟨"notes", false, false, false⟩, ⟨"empty", true, false, false⟩] =
      ["sales"] := by
  rfl

/-! ### C4 -/

/-- C4 counterexample.  The claim says validation rejects bags containing
a key not declared by any parameter spec.  For the schema synthesized
from the single required `string` parameter `account` (whose field
accepts exactly strings), a bag with the undeclared key `bogus`
validates successfully — the Pydantic model is created with the default
configuration, whose `extra` behaviour is `"ignore"`, so the unknown key
is silently dropped rather than rejected. -/
theorem claim_C4_counterexample :
    validateBag strFieldAccepts [⟨"account", true, false, PyValue.none⟩]
      [("account", PyValue.str "A-1"), ("bogus", PyValue.str "z")] =
    .ok [("account", PyValue.str "A-1")] := by
  rfl

/-- C4 amended: for every value-acceptance predicate (in particular
Pydantic's actual type/coercion table), validating a keyword-argument bag
against the synthesized schema rejects bags missing a required parameter;
a successfully validated bag re-materializes with exactly the declared
fields; and keys not declared by any parameter spec never affect the
validation outcome at all — unknown keys are silently ignored and
dropped, not rejected. -/
theorem claim_C4_amended (vok : ParamSpec → PyValue → Bool)
    (specs : List ParamSpec) (bag : List (String × PyValue)) :
    ((∃ sp ∈ specs, sp.required = true ∧ alookup sp.name bag = Option.none) →
      exceptOk (validateBag vok specs bag) = false)
    ∧ (∀ out, validateBag vok specs bag = .ok out →
        out.map Prod.fst = specs.map ParamSpec.name)
    ∧ (∀ k v, k ∉ specs.map ParamSpec.name →
        validateBag vok specs ((k, v) :: bag) = validateBag vok specs bag) := by
  refine ⟨?_, ?_, ?_⟩
  · rintro ⟨sp, hsp, hreq, hnone⟩
    have hmem : sp.name ∈ missingRequired specs bag := by
      unfold missingRequired
      exact List.mem_map.mpr
        ⟨sp, List.mem_filter.mpr ⟨hsp, by simp [hreq, hnone]⟩, rfl⟩
    unfold validateBag
    rcases h : missingRequired specs bag ++ invalidPresent vok specs bag
      with _ | ⟨e, es⟩
    · rcases List.append_eq_nil.mp h with ⟨h1, -⟩
      rw [h1] at hmem
      simp at hmem
    · rfl
  · intro out hout
    unfold validateBag at hout
    split at hout
    · cases hout
      unfold materializeFields
      rw [List.map_map]
      rfl
    · cases hout
  · intro k v hk
    have hlook : ∀ sp ∈ specs,
        alookup sp.name ((k, v) :: bag) = alookup sp.name bag := by
      intro sp hsp
      rw [alookup, if_neg]
      intro heq
      refine hk ?_
      rw [heq]
      exact List.mem_map.mpr ⟨sp, hsp, rfl⟩
    have hmr : missingRequired specs ((k, v) :: bag) =
        missingRequired specs bag := by
      unfold missingRequired
      congr 1
      apply List.filter_congr
      intro sp hsp
      rw [hlook sp hsp]
    have hip : invalidPresent vok specs ((k, v) :: bag) =
        invalidPresent vok specs bag := by
      unfold invalidPresent
      congr 1
      apply List.filter_congr
      intro sp hsp
      rw [hlook sp hsp]
    have hmf : materializeFields specs ((k, v) :: bag) =
        materializeFields specs bag := by
      unfold materializeFields
      apply List.map_congr_left
      intro sp hsp
      rw [hlook sp hsp]
    unfold validateBag
    rw [hmr, hip, hmf]

theorem claim_C4_amended_witness :
    exceptOk (validateBag strFieldAccepts
        [⟨"account", true, false, PyValue.none⟩] []) = false
    ∧ [("account", PyValue.str "A-1")].map Prod.fst =
        [(⟨"account", true, false, PyValue.none⟩ : ParamSpec)].map
          ParamSpec.name
    ∧ validateBag strFieldAccepts [⟨"account", true, false, PyValue.none⟩]
        [("bogus", PyValue.str "z"), ("account", PyValue.str "A-1")] =
      validateBag strFieldAccepts [⟨"account", true, false, PyValue.none⟩]
        [("account", PyValue.str "A-1")] :=
  ⟨(claim_C4_amended strFieldAccepts
      [⟨"account", true, false, PyValue.none⟩] []).1
     ⟨⟨"account", true, false, PyValue.none⟩, by simp, rfl, rfl⟩,
   (claim_C4_amended strFieldAccepts [⟨"account", true, false, PyValue.none⟩]
      [("account", PyValue.str "A-1"), ("bogus", PyValue.str "z")]).2.1
     [("account", PyValue.str "A-1")] (by rfl),
   (claim_C4_amended strFieldAccepts [⟨"account", true, false, PyValue.none⟩]
      [("account", PyValue.str "A-1")]).2.2 "bogus" (PyValue.str "z")
     (by decide)⟩

/-! ### C6 -/

/-- C6: during rendering, once step 1 (conditional blocks) has succeeded,
every remaining simple placeholder that is not a condition parameter and
whose parameter is absent from the argument bag causes a
missing-parameter error naming such a parameter; present values are
substituted type-aware (single quotes doubled in strings, `true`/`false`
for booleans, `NULL` for null, natural string form otherwise), and the
ledger example renders exactly as claimed and reaches the connector with
exactly that text through the secure query path. -/
theorem claim_C6_missing_and_typed_substitution :
    (∀ (t : String) (kw : List (String × PyValue)) (r1 : List Char)
        (p : String),
      applyBlocks kw (templateBlocks t) t.toList = .ok r1 →
      p ∈ templateParams t → p ∉ condNames t → alookup p kw = Option.none →
      ∃ q, renderT t kw = .error (.missingParam q) ∧ q ∈ templateParams t ∧
        q ∉ condNames t ∧ alookup q kw = Option.none)
    ∧ renderT "V=\x7bp\x7d" [("p", PyValue.str "a\x27b")] = .ok "V=a\x27\x27b"
    ∧ renderT "V=\x7bp\x7d" [("p", PyValue.bool true)] = .ok "V=true"
    ∧ renderT "V=\x7bp\x7d" [("p", PyValue.bool false)] = .ok "V=false"
    ∧ renderT "V=\x7bp\x7d" [("p", PyValue.none)] = .ok "V=NULL"
    ∧ renderT "V=\x7bp\x7d" [("p", PyValue.int (-7))] = .ok "V=-7"
    ∧ renderT "SELECT * FROM ledger WHERE account = \x27\x7baccount\x7d\x27"
        [("account", PyValue.str "A-1")] =
      .ok "SELECT * FROM ledger WHERE account = \x27A-1\x27"
    ∧ buildQueryFunctionCall true
        "SELECT * FROM ledger WHERE account = \x27\x7baccount\x7d\x27"
        [("account", PyValue.str "A-1")] =
      .connectorCall "SELECT * FROM ledger WHERE account = \x27A-1\x27" := by
  refine ⟨?_, rfl, rfl, rfl, rfl, rfl, rfl, rfl⟩
  intro t kw r1 p h1 hmem hcond hnone
  obtain ⟨q, hq⟩ :=
    @substParams_error_exists kw (condNames t) (templateParams t) r1
      ⟨p, hmem, hnone, hcond⟩
  have hprops := substParams_error_mem hq
  refine ⟨q, ?_, hprops.1, hprops.2.2, hprops.2.1⟩
  unfold renderT
  rw [h1]
  simp [hq]

theorem claim_C6_witness :
    ∃ q, renderT "X=\x7bq\x7d" [] = .error (.missingParam q) ∧
      q ∈ templateParams "X=\x7bq\x7d" ∧ q ∉ condNames "X=\x7bq\x7d" ∧
      alookup q ([] : List (String × PyValue)) = Option.none :=
  claim_C6_missing_and_typed_substitution.1 "X=\x7bq\x7d" [] "X=\x7bq\x7d".toList
    "q" rfl (by decide) (by decide) rfl

/-! ### C7 -/

theorem foldr_max_lt_iff (c : Nat) (l : List Nat) :
    c < l.foldr max 0 ↔ ∃ x ∈ l, c < x := by
  induction l with
  | nil => simp
  | cons a l ih => simp [List.foldr_cons, lt_max_iff, ih]

/-- C7: for a loaded skill, `needs_reload` (which compares the maximum
modification time over the skill's three source files against the value
cached at the last successful load, itself the maximum at load time)
returns true exactly when some one of the three files now exists with a
modification time past the cached value. -/
theorem claim_C7_needs_reload (current past : SkillFiles) :
    needsReload current (getSkillMtime past) = true ↔
      ∃ m, (current.skillMd = some m ∨ current.toolsYaml = some m ∨
            current.toolsPy = some m) ∧ getSkillMtime past < m := by
  unfold needsReload
  rw [decide_eq_true_eq]
  unfold getSkillMtime
  rw [gt_iff_lt, foldr_max_lt_iff]
  constructor
  · rintro ⟨x, hx, hlt⟩
    simp only [mtimeList, List.mem_filterMap, id_eq] at hx
    obtain ⟨a, ha, rfl⟩ := hx
    simp only [List.mem_cons, List.not_mem_nil, or_false] at ha
    exact ⟨x, by tauto, hlt⟩
  · rintro ⟨m, hm, hlt⟩
    refine ⟨m, ?_, hlt⟩
    simp only [mtimeList, List.mem_filterMap, id_eq]
    exact ⟨some m, by simp [List.mem_cons]; tauto, rfl⟩

/-! ### C9 -/

/-- C9 (implicit): values substituted for placeholders inside a taken
conditional block are inserted verbatim by plain `str.format` — for every
value the formatted block body is the body text with the raw `str()` of
the value spliced in, without quote escaping; in particular a string
containing a single quote keeps it unescaped inside the block, while the
same value substituted by step 2 outside any block has the quote
doubled. -/
theorem claim_C9_block_substitution_verbatim :
    (∀ v : PyValue, pyFormat [("x", v)] "A\x7bx\x7dB".toList =
      .ok ('A' :: ((pyStr v).toList ++ ['B'])))
    ∧ renderT "\x7b% if x %\x7dA\x7bx\x7dB\x7b% endif %\x7d"
        [("x", PyValue.str "O\x27Brien")] = .ok "AO\x27BrienB"
    ∧ renderT "A\x7bx\x7dB" [("x", PyValue.str "O\x27Brien")] =
        .ok "AO\x27\x27BrienB" := by
  exact ⟨fun v => rfl, rfl, rfl⟩

/-! ### C2 -/

/-- C2: for every registry state and skill, `register` raises a
duplicate-skill error when the skill name is already registered, and a
duplicate-tool error when one of the skill's tools is already indexed; in
both failure cases the returned state is exactly the prior registry (both
maps, hence both counts, unchanged — the two checks precede every
mutation), and on success the skill is registered and every one of its
tools is indexed to it. -/
theorem claim_C2_register_all_or_nothing (r : Registry) (s : SkillM) :
    ((alookup s.name r.skills).isSome = true →
      register r s = (r, some (RegError.duplicateSkill s.name)))
    ∧ ((alookup s.name r.skills).isSome = false →
        (∃ t ∈ s.tools, (alookup t r.toolIndex).isSome = true) →
        ∃ t o, t ∈ s.tools ∧ alookup t r.toolIndex = some o ∧
          register r s = (r, some (RegError.duplicateTool t o)))
    ∧ ((alookup s.name r.skills).isSome = false →
        (∀ t ∈ s.tools, alookup t r.toolIndex = Option.none) →
        (register r s).2 = Option.none ∧
        alookup s.name (register r s).1.skills = some s ∧
        ∀ t ∈ s.tools, alookup t (register r s).1.toolIndex = some s.name) := by
  refine ⟨?_, ?_, ?_⟩
  · intro h
    unfold register
    rw [if_pos h]
  · intro h1 h2
    rcases hconf : firstToolConflict s.tools r.toolIndex with _ | ⟨t, o⟩
    · obtain ⟨t, ht, hsome⟩ := h2
      rw [firstToolConflict_eq_none.mp hconf t ht] at hsome
      simp at hsome
    · have hto := firstToolConflict_eq_some hconf
      refine ⟨t, o, hto.1, hto.2, ?_⟩
      unfold register
      rw [if_neg (by simp [h1]), hconf]
  · intro h1 h2
    have hreg : register r s =
        ({ skills := dictInsert s.name s r.skills,
           toolIndex := s.tools.foldl (fun idx t => dictInsert t s.name idx)
             r.toolIndex }, Option.none) := by
      unfold register
      rw [if_neg (by simp [h1]), firstToolConflict_eq_none.mpr h2]
    rw [hreg]
    refine ⟨rfl, ?_, ?_⟩
    · simp [alookup_dictInsert]
    · intro t ht
      simp [alookup_foldl_insert, ht]

/-- The registry used to instantiate `claim_C2_register_all_or_nothing`:
one skill `a` owning tool `t1`. -/
def c2Registry : Registry :=
  ⟨[("a", ⟨"a", ["t1"]⟩)], [("t1", "a")]⟩

theorem claim_C2_witness :
    register c2Registry ⟨"a", []⟩ =
      (c2Registry, some (RegError.duplicateSkill "a"))
    ∧ (∃ t o, t ∈ ["t1"] ∧ alookup t c2Registry.toolIndex = some o ∧
        register c2Registry ⟨"b", ["t1"]⟩ =
          (c2Registry, some (RegError.duplicateTool t o)))
    ∧ ((register c2Registry ⟨"c", ["t2"]⟩).2 = Option.none ∧
        alookup "c" (register c2Registry ⟨"c", ["t2"]⟩).1.skills =
          some ⟨"c", ["t2"]⟩ ∧
        ∀ t ∈ ["t2"],
          alookup t (register c2Registry ⟨"c", ["t2"]⟩).1.toolIndex =
            some "c") :=
  ⟨(claim_C2_register_all_or_nothing c2Registry ⟨"a", []⟩).1 (by rfl),
   (claim_C2_register_all_or_nothing c2Registry ⟨"b", ["t1"]⟩).2.1 (by rfl)
     ⟨"t1", by simp, by rfl⟩,
   (claim_C2_register_all_or_nothing c2Registry ⟨"c", ["t2"]⟩).2.2 (by rfl)
     (by decide)⟩

/-! ### Association-list lemmas for the registry invariant -/

/-- The keys of a map are pairwise distinct (true of every Python dict
modelled as an association list, and maintained below). -/
def KeysNodup {β : Type} (l : List (String × β)) : Prop :=
  (l.map Prod.fst).Nodup

theorem alookup_eq_none_iff {β : Type} {k : String} {l : List (String × β)} :
    alookup k l = Option.none ↔ k ∉ l.map Prod.fst := by
  induction l with
  | nil => simp [alookup]
  | cons kv rest ih =>
    obtain ⟨k1, v1⟩ := kv
    by_cases h : k1 = k
    · subst h
      simp [alookup]
    · have h2 : ¬(k = k1) := fun hh => h hh.symm
      simp [alookup, h, h2, ih]

theorem dictInsert_of_none {β : Type} {k : String} {l : List (String × β)}
    (h : alookup k l = Option.none) (v : β) :
    dictInsert k v l = l ++ [(k, v)] := by
  induction l with
  | nil => simp [dictInsert]
  | cons kv rest ih =>
    obtain ⟨k1, v1⟩ := kv
    rw [alookup] at h
    split at h
    · cases h
    · rename_i h1
      simp only [dictInsert, if_neg h1, List.cons_append, List.cons.injEq,
        true_and]
      exact ih h

theorem keysNodup_dictInsert_of_none {β : Type} {k : String}
    {l : List (String × β)} (h : alookup k l = Option.none) (v : β)
    (hn : KeysNodup l) : KeysNodup (dictInsert k v l) := by
  rw [dictInsert_of_none h v]
  unfold KeysNodup at hn ⊢
  rw [List.map_append]
  simp only [List.map_cons, List.map_nil]
  rw [List.nodup_append]
  exact ⟨hn, List.nodup_singleton _,
    by simpa using fun hk => alookup_eq_none_iff.mp h hk⟩

theorem keysNodup_foldl_insert {ts : List String} {sn : String}
    {idx : List (String × String)} (hfresh : ∀ t ∈ ts, alookup t idx = Option.none)
    (hnd : ts.Nodup) (hidx : KeysNodup idx) :
    KeysNodup (ts.foldl (fun i t => dictInsert t sn i) idx) := by
  induction ts generalizing idx with
  | nil => simpa using hidx
  | cons t ts ih =>
    simp only [List.foldl_cons]
    have hfresh_t := hfresh t (List.mem_cons_self _ _)
    refine ih ?_ (List.Nodup.of_cons hnd) (keysNodup_dictInsert_of_none hfresh_t sn hidx)
    intro u hu
    rw [alookup_dictInsert]
    have hne : t ≠ u := fun h => (List.nodup_cons.mp hnd).1 (h ▸ hu)
    rw [if_neg hne]
    exact hfresh u (List.mem_cons_of_mem _ hu)

theorem eraseKey_sublist {β : Type} (k : String) (l : List (String × β)) :
    (eraseKey k l).Sublist l := by
  induction l with
  | nil => simp [eraseKey]
  | cons kv rest ih =>
    obtain ⟨k1, v1⟩ := kv
    rw [eraseKey]
    split
    · exact List.sublist_cons_self _ _
    · exact List.Sublist.cons₂ _ ih

theorem keysNodup_eraseKey {β : Type} {k : String} {l : List (String × β)}
    (hn : KeysNodup l) : KeysNodup (eraseKey k l) :=
  List.Nodup.sublist (List.Sublist.map _ (eraseKey_sublist k l)) hn

theorem alookup_eraseKey_ne {β : Type} {k k' : String}
    {l : List (String × β)} (h : k' ≠ k) :
    alookup k' (eraseKey k l) = alookup k' l := by
  induction l with
  | nil => simp [eraseKey]
  | cons kv rest ih =>
    obtain ⟨k1, v1⟩ := kv
    rw [eraseKey]
    split
    · rename_i h1
      subst h1
      rw [alookup, if_neg (fun hh => h hh.symm)]
    · rw [alookup, alookup]
      split
      · rfl
      · exact ih

theorem alookup_eraseKey_self {β : Type} {k : String} {l : List (String × β)}
    (hn : KeysNodup l) : alookup k (eraseKey k l) = Option.none := by
  induction l with
  | nil => simp [eraseKey, alookup]
  | cons kv rest ih =>
    obtain ⟨k1, v1⟩ := kv
    rw [eraseKey]
    split
    · rename_i h1
      subst h1
      rw [alookup_eq_none_iff]
      exact (List.nodup_cons.mp hn).1
    · rename_i h1
      rw [alookup, if_neg h1]
      exact ih (List.Nodup.of_cons hn)

/-- The cumulative effect of the deletion loop of `unregister`. -/
def eraseKeys (ts : List String) (l : List (String × String)) :
    List (String × String) :=
  ts.foldl (fun acc t => eraseKey t acc) l

theorem keysNodup_eraseKeys {ts : List String} {l : List (String × String)}
    (hn : KeysNodup l) : KeysNodup (eraseKeys ts l) := by
  induction ts generalizing l with
  | nil => simpa [eraseKeys] using hn
  | cons t ts ih => exact ih (keysNodup_eraseKey hn)

theorem alookup_eraseKeys {ts : List String} {l : List (String × String)}
    (hn : KeysNodup l) (x : String) :
    alookup x (eraseKeys ts l) =
      if x ∈ ts then Option.none else alookup x l := by
  induction ts generalizing l with
  | nil => simp [eraseKeys]
  | cons t ts ih =>
    have step : eraseKeys (t :: ts) l = eraseKeys ts (eraseKey t l) := rfl
    rw [step, ih (keysNodup_eraseKey hn)]
    by_cases hx : x ∈ ts
    · simp [hx]
    · by_cases hxt : x = t
      · subst hxt
        simp [hx, alookup_eraseKey_self hn]
      · simp [hx, hxt, alookup_eraseKey_ne hxt]

theorem delToolKeys_success {idx : List (String × String)} {ts : List String}
    (hn : KeysNodup idx) (hnd : ts.Nodup)
    (hall : ∀ t ∈ ts, (alookup t idx).isSome = true) :
    delToolKeys idx ts = (eraseKeys ts idx, Option.none) := by
  induction ts generalizing idx with
  | nil => rfl
  | cons t ts ih =>
    rw [delToolKeys]
    have hsome := hall t (List.mem_cons_self _ _)
    rw [delKey, if_pos hsome]
    have step : eraseKeys (t :: ts) idx = eraseKeys ts (eraseKey t idx) := rfl
    rw [step]
    refine ih (keysNodup_eraseKey hn) (List.Nodup.of_cons hnd) ?_
    intro u hu
    have hne : u ≠ t := fun h => (List.nodup_cons.mp hnd).1 (h ▸ hu)
    rw [alookup_eraseKey_ne hne]
    exact hall u (List.mem_cons_of_mem _ hu)

/-! ### The registry invariant -/

/-- Mutual consistency of the registry's two maps. -/
structure RegInv (r : Registry) : Prop where
  skillsNodup : KeysNodup r.skills
  idxNodup : KeysNodup r.toolIndex
  skillKey : ∀ sn sk, alookup sn r.skills = some sk → sk.name = sn
  skillToolsNodup : ∀ sn sk, alookup sn r.skills = some sk → sk.tools.Nodup
  toolsIndexed : ∀ sn sk, alookup sn r.skills = some sk →
    ∀ t ∈ sk.tools, alookup t r.toolIndex = some sn
  idxSound : ∀ t sn, alookup t r.toolIndex = some sn →
    ∃ sk, alookup sn r.skills = some sk ∧ t ∈ sk.tools

theorem regInv_empty : RegInv emptyRegistry := by
  constructor <;> simp [emptyRegistry, KeysNodup, alookup]

theorem regInv_register {r : Registry} {s : SkillM} {r' : Registry}
    (hinv : RegInv r) (hnd : s.tools.Nodup)
    (h : register r s = (r', Option.none)) : RegInv r' := by
  unfold register at h
  split at h
  · exact absurd (congrArg Prod.snd h) (by simp)
  · rename_i hname
    have hfresh_name : alookup s.name r.skills = Option.none := by
      rcases hh : alookup s.name r.skills with _ | v
      · rfl
      · rw [hh] at hname; simp at hname
    split at h
    · exact absurd (congrArg Prod.snd h) (by simp)
    · rename_i hconf
      have hfresh_tools : ∀ t ∈ s.tools, alookup t r.toolIndex = Option.none :=
        firstToolConflict_eq_none.mp hconf
      have hr' : r' =
          { skills := dictInsert s.name s r.skills,
            toolIndex := s.tools.foldl (fun idx t => dictInsert t s.name idx)
              r.toolIndex } := (congrArg Prod.fst h).symm
      subst hr'
      constructor
      · exact keysNodup_dictInsert_of_none hfresh_name s hinv.skillsNodup
      · exact keysNodup_foldl_insert hfresh_tools hnd hinv.idxNodup
      · intro sn sk hsk
        rw [alookup_dictInsert] at hsk
        split at hsk
        · rename_i heq
          cases hsk
          exact heq
        · exact hinv.skillKey sn sk hsk
      · intro sn sk hsk
        rw [alookup_dictInsert] at hsk
        split at hsk
        · cases hsk
          exact hnd
        · exact hinv.skillToolsNodup sn sk hsk
      · intro sn sk hsk t ht
        rw [alookup_dictInsert] at hsk
        rw [alookup_foldl_insert]
        split at hsk
        · rename_i heq
          cases hsk
          rw [if_pos ht, heq]
        · have hold := hinv.toolsIndexed sn sk hsk t ht
          have hnot : t ∉ s.tools := by
            intro hts
            rw [hfresh_tools t hts] at hold
            cases hold
          rw [if_neg hnot]
          exact hold
      · intro t sn hsn
        rw [alookup_foldl_insert] at hsn
        split at hsn
        · rename_i hts
          cases hsn
          refine ⟨s, ?_, hts⟩
          rw [alookup_dictInsert, if_pos rfl]
        · obtain ⟨sk, hsk, hts⟩ := hinv.idxSound t sn hsn
          refine ⟨sk, ?_, hts⟩
          rw [alookup_dictInsert]
          have hne : s.name ≠ sn := by
            intro heq
            rw [heq] at hfresh_name
            rw [hfresh_name] at hsk
            cases hsk
          rw [if_neg hne]
          exact hsk

theorem regInv_unregister {r : Registry} {n : String} {r' : Registry}
    (hinv : RegInv r) (h : unregister r n = (r', Option.none)) : RegInv r' := by
  unfold unregister at h
  split at h
  · exact absurd (congrArg Prod.snd h) (by simp)
  · rename_i sk hsk
    have hnd := hinv.skillToolsNodup n sk hsk
    have hall : ∀ t ∈ sk.tools, (alookup t r.toolIndex).isSome = true := by
      intro t ht
      rw [hinv.toolsIndexed n sk hsk t ht]
      rfl
    rw [delToolKeys_success hinv.idxNodup hnd hall] at h
    have hr' : r' = { skills := eraseKey n r.skills,
                      toolIndex := eraseKeys sk.tools r.toolIndex } :=
      (congrArg Prod.fst h).symm
    subst hr'
    have hskills : ∀ sn sk', alookup sn (eraseKey n r.skills) = some sk' →
        sn ≠ n ∧ alookup sn r.skills = some sk' := by
      intro sn sk' hsk'
      have hne : sn ≠ n := by
        intro heq
        subst heq
        rw [alookup_eraseKey_self hinv.skillsNodup] at hsk'
        cases hsk'
      rw [alookup_eraseKey_ne hne] at hsk'
      exact ⟨hne, hsk'⟩
    constructor
    · exact keysNodup_eraseKey hinv.skillsNodup
    · exact keysNodup_eraseKeys hinv.idxNodup
    · intro sn sk' hsk'
      exact hinv.skillKey sn sk' (hskills sn sk' hsk').2
    · intro sn sk' hsk'
      exact hinv.skillToolsNodup sn sk' (hskills sn sk' hsk').2
    · intro sn sk' hsk' t ht
      obtain ⟨hne, hold⟩ := hskills sn sk' hsk'
      rw [alookup_eraseKeys hinv.idxNodup]
      have hnot : t ∉ sk.tools := by
        intro hts
        have h1 := hinv.toolsIndexed n sk hsk t hts
        have h2 := hinv.toolsIndexed sn sk' hold t ht
        rw [h1] at h2
        cases h2
        exact hne rfl
      rw [if_neg hnot]
      exact hinv.toolsIndexed sn sk' hold t ht
    · intro t sn hsn
      rw [alookup_eraseKeys hinv.idxNodup] at hsn
      split at hsn
      · cases hsn
      · rename_i hnot
        obtain ⟨sk', hsk', hts⟩ := hinv.idxSound t sn hsn
        have hne : sn ≠ n := by
          intro heq
          subst heq
          rw [hsk] at hsk'
          cases hsk'
          exact hnot hts
        refine ⟨sk', ?_, hts⟩
        rw [alookup_eraseKey_ne hne]
        exact hsk'

theorem runOps_inv {ops : List Op} {r0 r : Registry} (hinv : RegInv r0)
    (hnds : ∀ s, Op.reg s ∈ ops → s.tools.Nodup)
    (h : runOps r0 ops = some r) : RegInv r := by
  induction ops generalizing r0 with
  | nil =>
    rw [runOps] at h
    cases h
    exact hinv
  | cons op ops ih =>
    rw [runOps] at h
    split at h
    · rename_i r1 happ
      have hinv1 : RegInv r1 := by
        cases op with
        | reg s =>
          exact regInv_register hinv
            (hnds s (by exact List.mem_cons_self _ _)) happ
        | unreg n => exact regInv_unregister hinv happ
      exact ih hinv1 (fun s hs => hnds s (List.mem_cons_of_mem _ hs)) h
    · cases h

/-! ### C10 -/

/-- C10 (implicit): after any sequence of `register`/`unregister` calls
from the empty registry that completes without raising, on skills whose
own tool names are pairwise distinct, the two registry maps are mutually
consistent: every tool-index entry points to a registered skill (stored
under its own name) whose tools contain that tool name; a tool name is
indexed exactly when some registered skill owns it; and `get_tool`
succeeds exactly on the indexed names. -/
theorem claim_C10_registry_maps_consistent (ops : List Op) (r : Registry)
    (hnds : ∀ s, Op.reg s ∈ ops → s.tools.Nodup)
    (hrun : runOps emptyRegistry ops = some r) :
    (∀ t sn, alookup t r.toolIndex = some sn →
      ∃ sk, alookup sn r.skills = some sk ∧ sk.name = sn ∧ t ∈ sk.tools)
    ∧ (∀ t, (alookup t r.toolIndex).isSome = true ↔
        ∃ sn sk, alookup sn r.skills = some sk ∧ t ∈ sk.tools)
    ∧ (∀ t, exceptOk (getTool r t) = true ↔
        (alookup t r.toolIndex).isSome = true) := by
  have hinv : RegInv r := runOps_inv regInv_empty hnds hrun
  refine ⟨?_, ?_, ?_⟩
  · intro t sn hsn
    obtain ⟨sk, hsk, hts⟩ := hinv.idxSound t sn hsn
    exact ⟨sk, hsk, hinv.skillKey sn sk hsk, hts⟩
  · intro t
    constructor
    · intro hsome
      obtain ⟨sn, hsn⟩ := Option.isSome_iff_exists.mp hsome
      obtain ⟨sk, hsk, hts⟩ := hinv.idxSound t sn hsn
      exact ⟨sn, sk, hsk, hts⟩
    · rintro ⟨sn, sk, hsk, hts⟩
      rw [hinv.toolsIndexed sn sk hsk t hts]
      rfl
  · intro t
    constructor
    · intro hok
      unfold getTool at hok
      rcases hsn : alookup t r.toolIndex with _ | sn
      · rw [hsn] at hok
        simp [exceptOk] at hok
      · rfl
    · intro hsome
      obtain ⟨sn, hsn⟩ := Option.isSome_iff_exists.mp hsome
      obtain ⟨sk, hsk, hts⟩ := hinv.idxSound t sn hsn
      unfold getTool
      simp only [hsn, hsk]
      have hfind : (sk.tools.find? (fun u => decide (u = t))).isSome = true := by
        rw [List.find?_isSome]
        exact ⟨t, hts, by simp⟩
      rcases hf : sk.tools.find? (fun u => decide (u = t)) with _ | u
      · rw [hf] at hfind
        cases hfind
      · simp only [hf]
        rfl

/-- The call sequence used to instantiate
`claim_C10_registry_maps_consistent`. -/
def c10Ops : List Op :=
  [.reg ⟨"a", ["t1", "t2"]⟩, .reg ⟨"b", ["t3"]⟩, .unreg "a"]

theorem claim_C10_witness :
    exceptOk (getTool ⟨[("b", ⟨"b", ["t3"]⟩)], [("t3", "b")]⟩ "t3") = true ↔
      (alookup "t3"
        (Registry.toolIndex ⟨[("b", ⟨"b", ["t3"]⟩)], [("t3", "b")]⟩)).isSome =
        true :=
  (claim_C10_registry_maps_consistent c10Ops
    ⟨[("b", ⟨"b", ["t3"]⟩)], [("t3", "b")]⟩
    (by
      intro s hs
      simp only [c10Ops, List.mem_cons, List.not_mem_nil, or_false] at hs
      rcases hs with hs | hs | hs
      · injection hs with h
        subst h
        decide
      · injection hs with h
        subst h
        decide
      · cases hs)
    (by rfl)).2.2 "t3"

end Skillian
